import Mathlib

/-!
# TinyMLDelta — shallow embedding of the patch-application core

This file embeds `src/runtime/src/tinymldelta_core.c` (together with the
wire-format declarations of `tinymldelta_internal.h`, the configuration
constants of `tinymldelta_config.h` and the port table of
`tinymldelta_ports.h`) into Lean and proves properties of the embedding.

Modelling conventions:
* machine integers become `Nat`; where the C performs `uint32` arithmetic
  that can wrap, the embedding writes `% 2^32` explicitly;
* the patch buffer is a `List Nat` of byte values; multi-byte fields are
  read little-endian exactly as the packed little-endian structs of
  `tinymldelta_internal.h` prescribe;
* the platform port is a record of pure oracles: each `bool`-returning
  port primitive is a function that yields the success of the call, and
  every port call made by the core is recorded in an event trace;
* a read past the end of a buffer (undefined behaviour in the C) is made
  explicit: the RLE decoder reports it as `RleResult.oobRead`, and the
  top-level applier propagates it as `AppRes.ub`.
-/

/-- `tmd_status_t` of `tinymldelta.h`. -/
inductive Status where
  | ok
  | errParam
  | errHdr
  | errIntegrity
  | errGuardrail
  | errFlash
  | errUnsupported
  | errInternal
deriving DecidableEq, Repr

/-- Parsed metadata TLV state (`tmd_meta_state_t`). -/
structure MetaState where
  req_arena_bytes : Nat
  tflm_abi : Nat
  opset_hash : Nat
  io_hash : Nat
deriving DecidableEq, Repr

/-- Compile-time firmware guardrail constants of `tinymldelta_config.h`
(`TMD_FIRMWARE_ARENA_BYTES`, `TMD_FIRMWARE_TFLM_ABI`,
`TMD_FIRMWARE_OPSET_HASH`, `TMD_FIRMWARE_IO_HASH`, `TMD_ENFORCE_IO_HASH`),
carried as parameters because ports may override them with `-D` flags. -/
structure FwCfg where
  arena_bytes : Nat
  tflm_abi : Nat
  opset_hash : Nat
  io_hash : Nat
  enforce_io : Bool
deriving DecidableEq, Repr

/-- Default values of the firmware constants in `tinymldelta_config.h`. -/
def fwDefault : FwCfg :=
  { arena_bytes := 64 * 1024, tflm_abi := 1, opset_hash := 0,
    io_hash := 0, enforce_io := false }

/-- Build-time feature selection of `tinymldelta_config.h`. -/
structure BuildCfg where
  use_crc32 : Bool
  use_cmac_crc : Bool
  feat_rle : Bool
  feat_journal : Bool
deriving DecidableEq, Repr

/-- Derived `TMD_FEAT_CRC32 = TMD_USE_CRC32 || TMD_USE_CMAC_CRC`. -/
def BuildCfg.feat_crc32 (c : BuildCfg) : Bool :=
  c.use_crc32 || c.use_cmac_crc

/-- Default build configuration (`TMD_USE_CRC32 = 1`, RLE and journal on). -/
def cfgDefault : BuildCfg :=
  { use_crc32 := true, use_cmac_crc := false,
    feat_rle := true, feat_journal := true }

/-- `TMD_SCRATCH_SZ` default of `tinymldelta_config.h`. -/
def TMD_SCRATCH_SZ : Nat := 1024

/-- `tmd_slot_t`: flash address and size of one model slot. -/
structure Slot where
  addr : Nat
  size : Nat
deriving DecidableEq, Repr

/-- `tmd_layout_t` (the `meta_addr` / `meta_size` fields are consumed only
by the port, never by the core, and are omitted). -/
structure Layout where
  slotA : Slot
  slotB : Slot
deriving DecidableEq, Repr

/-- `tmd_journal_t` of `tinymldelta_ports.h`. -/
structure Journal where
  magic : Nat
  patch_id : Nat
  next_chunk_idx : Nat
  target_slot : Nat
deriving DecidableEq, Repr

/-- `TMD_JOURNAL_MAGIC` (`'TMDP'`). -/
def TMD_JOURNAL_MAGIC : Nat := 0x544D4450

/-- The port table `tmd_ports_t`, modelled as pure oracles: a
`bool`-returning primitive becomes a function giving the success of the
call, `journal_read` becomes `Option Journal` (`none` models a failed
read), and `crc32` is `Option`al exactly as the function pointer may be
null. -/
structure Ports where
  flash_erase : Nat → Nat → Bool
  flash_write : Nat → Nat → Bool
  flash_read : Nat → Nat → Bool
  crc32 : Option (List Nat → Nat)
  get_active_slot : Nat
  set_active_slot : Nat → Bool
  journal_read : Option Journal
  journal_write : Journal → Bool
  journal_clear : Bool

/-- One observable port call made by the core. -/
inductive Ev where
  | erase (addr len : Nat)
  | readFlash (addr len : Nat)
  | write (addr len : Nat)
  | journalWrite (j : Journal)
  | journalClear
  | setActive (s : Nat)
deriving DecidableEq, Repr

/-- Read byte `i` of a buffer (0 when past the end; call sites stay in
range except where out-of-bounds access is modelled explicitly). -/
def byteAt (buf : List Nat) (i : Nat) : Nat := buf.getD i 0

/-- Little-endian `uint16` at offset `i`. -/
def le16 (buf : List Nat) (i : Nat) : Nat :=
  byteAt buf i + 256 * byteAt buf (i + 1)

/-- Little-endian `uint32` at offset `i`. -/
def le32 (buf : List Nat) (i : Nat) : Nat :=
  byteAt buf i + 256 * byteAt buf (i + 1) +
    65536 * byteAt buf (i + 2) + 16777216 * byteAt buf (i + 3)

/-- Result of `tmd_rle_decode`: success with the decoded bytes, the `-1`
overflow error, or a read of input index `i ≥` the accessible buffer length
(undefined behaviour in the C source). -/
inductive RleResult where
  | ok (out : List Nat)
  | overflow
  | oobRead (i : Nat)
deriving DecidableEq, Repr

/-- Loop of `tmd_rle_decode` (`tinymldelta_core.c:66-80`).  `inp` is the
accessible input buffer, `in_len` the length argument; the loop condition
is the source's `i + 1 <= in_len`.  The accumulator plays the role of the
output buffer: its length is the write cursor `o`, and the capacity check
`o + run > out_cap` is the source's (no wrap: `o ≤ out_cap` and
`run ≤ 256`, and the only caller passes `out_cap = 1024`).  `fuel` is an
explicit bound on the number of iterations, consumed once per iteration;
`rleLoop_fuel` below shows any fuel `≥ (in_len - i) / 2 + 1` is never
exhausted, and the wrapper passes `in_len`. -/
def rleLoop (inp : List Nat) (in_len out_cap : Nat) :
    Nat → Nat → List Nat → RleResult
  | 0, _, acc => .ok acc
  | fuel + 1, i, acc =>
    if i + 1 ≤ in_len then
      match inp.get? i with
      | none => .oobRead i
      | some count =>
        match inp.get? (i + 1) with
        | none => .oobRead (i + 1)
        | some val =>
          let run : Nat := if count = 0 then 256 else count
          if acc.length + run > out_cap then .overflow
          else rleLoop inp in_len out_cap fuel (i + 2) (acc ++ List.replicate run val)
    else .ok acc

/-- `tmd_rle_decode` (`tinymldelta_core.c:54-86`), with `TMD_FEAT_RLE`
as in the build configuration: when the feature is compiled out the
function returns `-1` (modelled as `overflow`). -/
def tmd_rle_decode (feat_rle : Bool) (inp : List Nat) (in_len out_cap : Nat) :
    RleResult :=
  if feat_rle then rleLoop inp in_len out_cap in_len 0 [] else .overflow

/-- The `switch (tlv->tag)` body of `tmd_parse_meta`
(`tinymldelta_core.c:122-166`): a recognized tag with the expected length
sets its field, every other tag leaves the state unchanged.  `val i`
denotes byte `i` of the TLV value. -/
def applyTlv (m : MetaState) (tag len : Nat) (val : Nat → Nat) : MetaState :=
  let u32 := val 0 + 256 * val 1 + 65536 * val 2 + 16777216 * val 3
  let u16 := val 0 + 256 * val 1
  if tag = 1 then  -- TMD_META_REQ_ARENA_BYTES
    if len = 4 then { m with req_arena_bytes := u32 } else m
  else if tag = 2 then  -- TMD_META_TFLM_ABI
    if len = 2 then { m with tflm_abi := u16 } else m
  else if tag = 3 then  -- TMD_META_OPSET_HASH
    if len = 4 then { m with opset_hash := u32 } else m
  else if tag = 4 then  -- TMD_META_IO_HASH
    if len = 4 then { m with io_hash := u32 } else m
  else m  -- vendor / unknown TLVs are ignored by core

/-- Loop of `tmd_parse_meta` (`tinymldelta_core.c:108-169`).
`sizeof(tmd_meta_tlv_t) = 2` (`tag:u8`, `len:u8`); the loop runs while
`off + 2 ≤ meta_len`, fails with `ERR_HDR` (`none`) when the declared
length (`byteAt buf (off + 1)`) exceeds the remaining bytes
`avail = meta_len - (off + 2)`, and otherwise dispatches on the tag
(`byteAt buf off`) and advances to `val_off + len`.  (`off` is a
`uint16` in the source; the loop guard keeps every computed offset
`≤ meta_len ≤ 65535`, so the `Nat` model is exact.)  `fuel` bounds the
iteration count, consumed once per iteration; each iteration advances
`off` by at least 2, and `parseMetaLoop_fuel` below shows any fuel with
`meta_len ≤ off + 2 * fuel` is never exhausted — the wrapper passes
`meta_len`. -/
def parseMetaLoop (buf : List Nat) (meta_len : Nat) :
    Nat → Nat → MetaState → Option MetaState
  | 0, _, m => some m
  | fuel + 1, off, m =>
    if off + 2 ≤ meta_len then
      if byteAt buf (off + 1) > meta_len - (off + 2) then none
      else
        parseMetaLoop buf meta_len fuel (off + 2 + byteAt buf (off + 1))
          (applyTlv m (byteAt buf off) (byteAt buf (off + 1))
            (fun i => byteAt buf (off + 2 + i)))
    else some m

/-- `tmd_parse_meta` (`tinymldelta_core.c:99-172`): zero-initializes the
state and walks the TLV block; `none` is the `ERR_HDR` return. -/
def tmd_parse_meta (buf : List Nat) (meta_len : Nat) : Option MetaState :=
  parseMetaLoop buf meta_len meta_len 0 ⟨0, 0, 0, 0⟩

/-- `tmd_check_guardrails` (`tinymldelta_core.c:187-233`), with the
firmware constants as parameters. -/
def tmd_check_guardrails (fw : FwCfg) (meta : MetaState) : Status :=
  if meta.req_arena_bytes ≠ 0 ∧ meta.req_arena_bytes > fw.arena_bytes then
    .errGuardrail
  else if meta.tflm_abi ≠ 0 ∧ meta.tflm_abi > fw.tflm_abi then
    .errGuardrail
  else if fw.opset_hash ≠ 0 ∧ meta.opset_hash ≠ 0 ∧
      meta.opset_hash ≠ fw.opset_hash then
    .errGuardrail
  else if fw.enforce_io ∧ fw.io_hash ≠ 0 ∧ meta.io_hash ≠ 0 ∧
      meta.io_hash ≠ fw.io_hash then
    .errGuardrail
  else .ok

/-- `chunk = (remaining > TMD_SCRATCH_SZ) ? TMD_SCRATCH_SZ : remaining`
(`tinymldelta_core.c:269`). -/
def copyChunkSz (remaining : Nat) : Nat :=
  if remaining > TMD_SCRATCH_SZ then TMD_SCRATCH_SZ else remaining

/-- Copy loop of `tmd_copy_slot` (`tinymldelta_core.c:268-291`): read
`copyChunkSz remaining` bytes from the source, write them to the
destination, until `remaining = 0`.  Every port call is recorded; a
failed call aborts with `ERR_FLASH`.  Flash addresses are the `uint32`
sums of the source.  `fuel` bounds the iteration count (consumed once
per iteration); each iteration removes `copyChunkSz remaining ≥ 1` from
`remaining`, and `copyLoop_fuel` below shows any fuel `≥ remaining` is
never exhausted — `tmd_copy_slot` passes `src.size`. -/
def copyLoop (P : Ports) (src dst : Slot) :
    Nat → Nat → Nat → Nat → Status × List Ev
  | 0, _, _, _ => (.ok, [])
  | fuel + 1, remaining, src_off, dst_off =>
    if remaining > 0 then
      if ¬ P.flash_read ((src.addr + src_off) % 2 ^ 32) (copyChunkSz remaining) then
        (.errFlash,
          [.readFlash ((src.addr + src_off) % 2 ^ 32) (copyChunkSz remaining)])
      else if ¬ P.flash_write ((dst.addr + dst_off) % 2 ^ 32) (copyChunkSz remaining) then
        (.errFlash,
          [.readFlash ((src.addr + src_off) % 2 ^ 32) (copyChunkSz remaining),
           .write ((dst.addr + dst_off) % 2 ^ 32) (copyChunkSz remaining)])
      else
        ((copyLoop P src dst fuel (remaining - copyChunkSz remaining)
            (src_off + copyChunkSz remaining) (dst_off + copyChunkSz remaining)).1,
          .readFlash ((src.addr + src_off) % 2 ^ 32) (copyChunkSz remaining) ::
          .write ((dst.addr + dst_off) % 2 ^ 32) (copyChunkSz remaining) ::
          (copyLoop P src dst fuel (remaining - copyChunkSz remaining)
            (src_off + copyChunkSz remaining) (dst_off + copyChunkSz remaining)).2)
    else (.ok, [])

/-- `tmd_copy_slot` (`tinymldelta_core.c:247-295`): erase the destination
range, then copy the source slot scratch-buffer-sized piece by piece. -/
def tmd_copy_slot (P : Ports) (src dst : Slot) : Status × List Ev :=
  if ¬ P.flash_erase dst.addr dst.size then (.errFlash, [.erase dst.addr dst.size])
  else
    let rest := copyLoop P src dst src.size src.size 0 0
    (rest.1, .erase dst.addr dst.size :: rest.2)

/-- Journal entry logic of `tmd_apply_patch_from_memory`
(`tinymldelta_core.c:410-424`): if `journal_read` fails or the magic is
wrong, re-initialize `{magic, patch_id = 0, next_chunk_idx = 0,
target_slot = inactive}`; otherwise keep the record read ("journal
resume"). -/
def journalSetup (r : Option Journal) (inactive : Nat) : Journal :=
  match r with
  | some j =>
    if j.magic = TMD_JOURNAL_MAGIC then j
    else { magic := TMD_JOURNAL_MAGIC, patch_id := 0, next_chunk_idx := 0,
           target_slot := inactive }
  | none =>
    { magic := TMD_JOURNAL_MAGIC, patch_id := 0, next_chunk_idx := 0,
      target_slot := inactive }

/-- Outcome of one chunk-loop iteration. -/
inductive ChunkRes where
  | err (st : Status) (evs : List Ev)
  | ub (evs : List Ev)
  | cont (off : Nat) (evs : List Ev)
deriving DecidableEq, Repr

/-- Bounds check and flash write shared by the RAW and RLE paths
(`tinymldelta_core.c:515-533`): the source's `uint32` comparison
`ch->off + data_len > slot_dst->size` (`ERR_PARAM` on failure) and the
`flash_write` at the `uint32` address `slot_dst->addr + ch->off`
(`ERR_FLASH` on port failure).  On success, `cont` carries the decoded
length. -/
def chunkWrite (P : Ports) (slot_dst : Slot) (ch_off data_len : Nat) : ChunkRes :=
  if (ch_off + data_len) % 2 ^ 32 > slot_dst.size then .err .errParam []
  else if ¬ P.flash_write ((slot_dst.addr + ch_off) % 2 ^ 32) data_len then
    .err .errFlash [.write ((slot_dst.addr + ch_off) % 2 ^ 32) data_len]
  else .cont data_len [.write ((slot_dst.addr + ch_off) % 2 ^ 32) data_len]

/-- Decode-and-write tail of one chunk-loop iteration
(`tinymldelta_core.c:489-533`): RAW (`enc == 0`) uses the encoded bytes
and length directly; RLE (`enc == 1`) decodes into the `TMD_SCRATCH_SZ`
scratch buffer (`-1` bubbles up as `ERR_HDR`, an out-of-bounds read is
undefined behaviour); any other encoding is `ERR_UNSUPPORTED`.  Both
supported paths then run `chunkWrite`. -/
def chunkDecodeWrite (cfg : BuildCfg) (P : Ports) (slot_dst : Slot)
    (enc_data : List Nat) (ch_off ch_len ch_enc : Nat) : ChunkRes :=
  if ch_enc = 0 then chunkWrite P slot_dst ch_off ch_len
  else if ch_enc = 1 then
    match tmd_rle_decode cfg.feat_rle enc_data ch_len TMD_SCRATCH_SZ with
    | .ok out => chunkWrite P slot_dst ch_off out.length
    | .overflow => .err .errHdr []
    | .oobRead _ => .ub []
  else .err .errUnsupported []

/-- Replace the payload-offset of a successful iteration by the new read
offset `off3` (the loop body continues with `off` advanced past the
payload); errors and undefined behaviour pass through. -/
def contWithOff (off3 : Nat) : ChunkRes → ChunkRes
  | .err st evs => .err st evs
  | .ub evs => .ub evs
  | .cont _ evs => .cont off3 evs

/-- One iteration of the chunk loop of `tmd_apply_patch_from_memory`
(`tinymldelta_core.c:434-533`), excluding the journal update: parse the
8-byte chunk header, parse the optional stored CRC (whenever the build
has CRC32 and `has_crc` is set), bounds-check the encoded payload,
verify the CRC when the port supplies `crc32`, then decode and write via
`chunkDecodeWrite`.  On success, `cont` carries the new read offset.  The
CRC is computed over exactly the `ch->len` encoded payload bytes, while
the RLE decoder receives the rest of the patch buffer with length
argument `ch_len`, mirroring that the C decoder can read patch bytes
beyond the payload (see the odd-length analysis below). -/
def processChunk (cfg : BuildCfg) (P : Ports) (slot_dst : Slot)
    (patch : List Nat) (off : Nat) : ChunkRes :=
  let patch_len := patch.length
  if off + 8 > patch_len then .err .errHdr []
  else
    let ch_off := le32 patch off
    let ch_len := le16 patch (off + 4)
    let ch_enc := byteAt patch (off + 6)
    let ch_has_crc := byteAt patch (off + 7)
    let off1 := off + 8
    if cfg.feat_crc32 ∧ ch_has_crc ≠ 0 ∧ off1 + 4 > patch_len then .err .errHdr []
    else
      let crc_val := if cfg.feat_crc32 ∧ ch_has_crc ≠ 0 then le32 patch off1 else 0
      let off2 := if cfg.feat_crc32 ∧ ch_has_crc ≠ 0 then off1 + 4 else off1
      if off2 + ch_len > patch_len then .err .errHdr []
      else
        let enc_data := (patch.drop off2).take ch_len
        let off3 := off2 + ch_len
        -- `if (ch->has_crc && P->crc32)`: when `crc32` is a null pointer
        -- the comparison is skipped, which `getD crc_val` renders exactly.
        let got := (P.crc32.map (fun f => f enc_data)).getD crc_val
        if cfg.feat_crc32 ∧ ch_has_crc ≠ 0 ∧ got ≠ crc_val then
          .err .errIntegrity []
        else
          contWithOff off3
            (chunkDecodeWrite cfg P slot_dst (patch.drop off2) ch_off ch_len ch_enc)

/-- Outcome of the whole chunk loop. -/
inductive LoopRes where
  | err (st : Status) (evs : List Ev)
  | ub (evs : List Ev)
  | done (evs : List Ev)
deriving DecidableEq, Repr

/-- Prefix a chunk-loop outcome with the events of the current
iteration. -/
def prependEvs (pre : List Ev) : LoopRes → LoopRes
  | .err st evs => .err st (pre ++ evs)
  | .ub evs => .ub (pre ++ evs)
  | .done evs => .done (pre ++ evs)

/-- The chunk loop of `tmd_apply_patch_from_memory`
(`tinymldelta_core.c:433-539`): for `idx` in `[idx₀, chunks_n)`, process
one chunk and then (when journaling is compiled in) set
`next_chunk_idx = idx + 1` and call `journal_write` (whose result the
source ignores).  The structural argument `k` is the number of loop
iterations still to run, i.e. `chunks_n - idx`; the caller passes
`k = chunks_n`, `idx = 0`. -/
def applyChunks (cfg : BuildCfg) (P : Ports) (slot_dst : Slot)
    (patch : List Nat) : Nat → Nat → Nat → Journal → LoopRes
  | 0, _, _, _ => .done []
  | k + 1, idx, off, j =>
    match processChunk cfg P slot_dst patch off with
    | .err st evs => .err st evs
    | .ub evs => .ub evs
    | .cont off2 evs =>
      prependEvs
        (if cfg.feat_journal then
          evs ++ [.journalWrite { j with next_chunk_idx := idx + 1 }] else evs)
        (applyChunks cfg P slot_dst patch k (idx + 1) off2
          { j with next_chunk_idx := idx + 1 })

/-- Result of `tmd_apply_patch_from_memory`: a status with the trace of
port calls, or `ub` when the run reached an out-of-bounds read (undefined
behaviour; the trace holds the calls made before that point). -/
inductive AppRes where
  | ret (st : Status) (evs : List Ev)
  | ub (evs : List Ev)
deriving DecidableEq, Repr

/-- `inactive = (active == 0) ? 1 : 0` (`tinymldelta_core.c:382`). -/
def inactive_of (P : Ports) : Nat :=
  if P.get_active_slot = 0 then 1 else 0

/-- Source slot selection (`tinymldelta_core.c:383`). -/
def slot_src_of (P : Ports) (L : Layout) : Slot :=
  if P.get_active_slot = 0 then L.slotA else L.slotB

/-- Destination slot selection (`tinymldelta_core.c:384`). -/
def slot_dst_of (P : Ports) (L : Layout) : Slot :=
  if inactive_of P = 0 then L.slotA else L.slotB

/-- `tmd_apply_patch_from_memory` (`tinymldelta_core.c:312-555`),
parameterized by the build configuration and the firmware guardrail
constants.  The port table and layout are given (the C null-pointer
checks on `tmd_ports()` / `tmd_layout()` / `patch` cannot fail in the
model); `sizeof(tmd_hdr_t) = 80` for the packed little-endian header. -/
def tmd_apply_patch_from_memory (cfg : BuildCfg) (fw : FwCfg) (P : Ports)
    (L : Layout) (patch : List Nat) : AppRes :=
  let patch_len := patch.length
  if patch_len < 80 then .ret .errParam []
  else
    let hdr_v := byteAt patch 0
    let hdr_algo := byteAt patch 1
    let hdr_chunks_n := le16 patch 2
    let hdr_meta_len := le16 patch 76
    if hdr_v ≠ 1 then .ret .errHdr []
    else if cfg.use_crc32 ∧ hdr_algo ≠ 1 then .ret .errUnsupported []
    else if 80 + hdr_meta_len > patch_len then .ret .errHdr []
    else
      match tmd_parse_meta (patch.drop 80) hdr_meta_len with
      | none => .ret .errHdr []
      | some meta =>
        if tmd_check_guardrails fw meta ≠ .ok then
          .ret (tmd_check_guardrails fw meta) []
        else
          let off := 80 + hdr_meta_len
          let inactive := inactive_of P
          let slot_src := slot_src_of P L
          let slot_dst := slot_dst_of P L
          if slot_src.size ≠ slot_dst.size then .ret .errParam []
          else
            match tmd_copy_slot P slot_src slot_dst with
            | (.ok, evsC) =>
              let j := journalSetup (if cfg.feat_journal then P.journal_read
                else none) inactive
              match applyChunks cfg P slot_dst patch hdr_chunks_n 0 off j with
              | .err st evsL => .ret st (evsC ++ evsL)
              | .ub evsL => .ub (evsC ++ evsL)
              | .done evsL =>
                let evsJ := if cfg.feat_journal then [Ev.journalClear] else []
                let evsAll := evsC ++ evsL ++ evsJ ++ [Ev.setActive inactive]
                if P.set_active_slot inactive then .ret .ok evsAll
                else .ret .errFlash evsAll
            | (stC, evsC) => .ret stC evsC

/-- Trace of a run. -/
def AppRes.events : AppRes → List Ev
  | .ret _ evs => evs
  | .ub evs => evs

/-- Is the event a `set_active_slot` call? -/
def Ev.isSetActive : Ev → Bool
  | .setActive _ => true
  | _ => false

/-- Is the event a `flash_write` call? -/
def Ev.isWrite : Ev → Bool
  | .write _ _ => true
  | _ => false

/-- Number of `set_active_slot` calls in a trace. -/
def countSetActive (evs : List Ev) : Nat := evs.countP Ev.isSetActive

/-- Number of `flash_write` calls in a trace. -/
def countWrites (evs : List Ev) : Nat := evs.countP Ev.isWrite

/-- The active-slot indicator after replaying a trace against the port
oracles, starting from indicator value `a`: `set_active_slot` is an
atomic commit (`tinymldelta_ports.h:137`), so a successful call installs
the new index and a failed call leaves the indicator unchanged. -/
def finalActive (P : Ports) (a : Nat) (evs : List Ev) : Nat :=
  evs.foldl (fun acc e => match e with
    | .setActive s => if P.set_active_slot s then s else acc
    | _ => acc) a


/-- Events of a chunk-iteration outcome. -/
def ChunkRes.events : ChunkRes → List Ev
  | .err _ evs => evs
  | .ub evs => evs
  | .cont _ evs => evs

/-- Events of a chunk-loop outcome. -/
def LoopRes.events : LoopRes → List Ev
  | .err _ evs => evs
  | .ub evs => evs
  | .done evs => evs

/-!
## Concrete fixtures

Byte-level patches, layouts and port tables used to evaluate the
embedding on concrete runs. -/

/-- Little-endian bytes of a `u16`. -/
def le16b (n : Nat) : List Nat := [n % 256, n / 256 % 256]

/-- Little-endian bytes of a `u32`. -/
def le32b (n : Nat) : List Nat :=
  [n % 256, n / 256 % 256, n / 65536 % 256, n / 16777216 % 256]

/-- An 80-byte patch header with the given `v`, `algo`, `chunks_n`,
`meta_len` and zeroed lengths, digests and flags. -/
def mkHdr (v algo chunks_n meta_len : Nat) : List Nat :=
  [v, algo] ++ le16b chunks_n ++ le32b 0 ++ le32b 0 ++
    List.replicate 64 0 ++ le16b meta_len ++ le16b 0

/-- A port table whose flash operations all succeed, with active slot 0,
no persisted journal, and a CRC32 capability that returns 0. -/
def portsOk : Ports :=
  { flash_erase := fun _ _ => true, flash_write := fun _ _ => true,
    flash_read := fun _ _ => true, crc32 := some (fun _ => 0),
    get_active_slot := 0, set_active_slot := fun _ => true,
    journal_read := none, journal_write := fun _ => true,
    journal_clear := true }

/-- `portsOk` with a null `crc32` capability. -/
def portsNoCrc : Ports := { portsOk with crc32 := none }

/-- A valid persisted journal record `{magic, patch_id = 7,
next_chunk_idx = 5, target_slot = 0}`. -/
def staleJournal : Journal := ⟨TMD_JOURNAL_MAGIC, 7, 5, 0⟩

/-- `portsOk` with `staleJournal` persisted: its valid `target_slot` (0)
is the slot the core is about to read from, not write to. -/
def portsStaleJournal : Ports :=
  { portsOk with journal_read := some staleJournal }

/-- Two 256-byte slots at flash addresses 0 and 4096. -/
def layout256 : Layout := { slotA := ⟨0, 256⟩, slotB := ⟨4096, 256⟩ }

/-- Two 2048-byte slots at flash addresses 0 and 4096. -/
def layout2048 : Layout := { slotA := ⟨0, 2048⟩, slotB := ⟨4096, 2048⟩ }

/-- One RAW chunk `{off = 0, len = 4, enc = 0, has_crc = 0}`. -/
def patchRaw4 : List Nat :=
  mkHdr 1 1 1 0 ++ le32b 0 ++ le16b 4 ++ [0, 0] ++ [0xDE, 0xAD, 0xBE, 0xEF]

/-- One RAW chunk with `off = 0xFFFFFFFF` and `len = 2`: the `uint32`
bounds check wraps. -/
def patchWrapOff : List Nat :=
  mkHdr 1 1 1 0 ++ le32b 0xFFFFFFFF ++ le16b 2 ++ [0, 0] ++ [7, 7]

/-- One RAW chunk of 1025 bytes — larger than `TMD_SCRATCH_SZ`. -/
def patchRaw1025 : List Nat :=
  mkHdr 1 1 1 0 ++ le32b 0 ++ le16b 1025 ++ [0, 0] ++ List.replicate 1025 0

/-- One RAW chunk with `has_crc = 1` and a stored CRC (`0xDEAD`) that no
all-zero CRC function matches. -/
def patchBadCrc : List Nat :=
  mkHdr 1 1 1 0 ++ le32b 0 ++ le16b 2 ++ [0, 1] ++ le32b 0xDEAD ++ [5, 6]

/-- A patch with unsupported header version 2. -/
def patchV2 : List Nat := mkHdr 2 1 0 0

theorem countSetActive_append (a b : List Ev) :
    countSetActive (a ++ b) = countSetActive a + countSetActive b := by
  simp [countSetActive, List.countP_append]

theorem countWrites_append (a b : List Ev) :
    countWrites (a ++ b) = countWrites a + countWrites b := by
  simp [countWrites, List.countP_append]

theorem countSetActive_pos_of_mem {evs : List Ev} {s : Nat}
    (h : Ev.setActive s ∈ evs) : 0 < countSetActive evs := by
  unfold countSetActive
  exact List.countP_pos_iff.mpr ⟨_, h, rfl⟩

theorem finalActive_append (P : Ports) (a : Nat) (l1 l2 : List Ev) :
    finalActive P a (l1 ++ l2) = finalActive P (finalActive P a l1) l2 := by
  simp [finalActive, List.foldl_append]

theorem finalActive_of_no_setActive (P : Ports) (a : Nat) {evs : List Ev}
    (h : countSetActive evs = 0) : finalActive P a evs = a := by
  induction evs generalizing a with
  | nil => rfl
  | cons e tl ih =>
    rw [countSetActive, List.countP_cons] at h
    match e with
    | .erase x y =>
      exact ih (a := a) (by simpa [countSetActive, Ev.isSetActive] using h)
    | .readFlash x y =>
      exact ih (a := a) (by simpa [countSetActive, Ev.isSetActive] using h)
    | .write x y =>
      exact ih (a := a) (by simpa [countSetActive, Ev.isSetActive] using h)
    | .journalWrite j =>
      exact ih (a := a) (by simpa [countSetActive, Ev.isSetActive] using h)
    | .journalClear =>
      exact ih (a := a) (by simpa [countSetActive, Ev.isSetActive] using h)
    | .setActive s => simp [Ev.isSetActive] at h

theorem rleLoop_fuel (inp : List Nat) (in_len out_cap : Nat) :
    ∀ (fuel i : Nat) (acc : List Nat), in_len ≤ i + 2 * fuel →
    rleLoop inp in_len out_cap fuel i acc =
      rleLoop inp in_len out_cap (fuel + 1) i acc := by
  intro fuel
  induction fuel with
  | zero =>
    intro i acc h
    rw [rleLoop, rleLoop]
    rw [if_neg (by omega)]
  | succ fuel ih =>
    intro i acc h
    conv_rhs => rw [rleLoop]
    rw [rleLoop]
    split
    · cases inp.get? i with
      | none => rfl
      | some count =>
        cases inp.get? (i + 1) with
        | none => rfl
        | some val =>
          simp only []
          split <;> split
          · rfl
          · exact ih (i + 2) _ (by omega)
          · rfl
          · exact ih (i + 2) _ (by omega)
    · rfl

theorem parseMetaLoop_fuel (buf : List Nat) (meta_len : Nat) :
    ∀ (fuel off : Nat) (m : MetaState), meta_len ≤ off + 2 * fuel →
    parseMetaLoop buf meta_len fuel off m =
      parseMetaLoop buf meta_len (fuel + 1) off m := by
  intro fuel
  induction fuel with
  | zero =>
    intro off m h
    rw [parseMetaLoop, parseMetaLoop]
    rw [if_neg (by omega)]
  | succ fuel ih =>
    intro off m h
    conv_rhs => rw [parseMetaLoop]
    rw [parseMetaLoop]
    split
    · split
      · rfl
      · exact ih _ _ (by omega)
    · rfl

theorem copyLoop_fuel (P : Ports) (src dst : Slot) :
    ∀ (fuel r a b : Nat), r ≤ fuel →
    copyLoop P src dst fuel r a b = copyLoop P src dst (fuel + 1) r a b := by
  intro fuel
  induction fuel with
  | zero =>
    intro r a b h
    rw [copyLoop, copyLoop]
    rw [if_neg (by omega)]
  | succ fuel ih =>
    intro r a b h
    conv_rhs => rw [copyLoop]
    rw [copyLoop]
    split
    · next hr =>
      have hck : 0 < copyChunkSz r ∧ copyChunkSz r ≤ r := by
        unfold copyChunkSz TMD_SCRATCH_SZ
        split <;> omega
      split
      · rfl
      · split
        · rfl
        · rw [ih _ _ _ (by omega)]
    · rfl

theorem copyLoop_status (P : Ports) (src dst : Slot) :
    ∀ (fuel r a b : Nat),
    (copyLoop P src dst fuel r a b).1 = .ok ∨
    (copyLoop P src dst fuel r a b).1 = .errFlash := by
  intro fuel
  induction fuel with
  | zero => intro r a b; simp [copyLoop]
  | succ fuel ih =>
    intro r a b
    rw [copyLoop]
    split
    · split
      · simp
      · split
        · simp
        · simpa using ih (r - copyChunkSz r) (a + copyChunkSz r) (b + copyChunkSz r)
    · simp

theorem copyLoop_no_setActive (P : Ports) (src dst : Slot) :
    ∀ (fuel r a b : Nat),
    countSetActive (copyLoop P src dst fuel r a b).2 = 0 := by
  intro fuel
  induction fuel with
  | zero => intro r a b; simp [copyLoop, countSetActive]
  | succ fuel ih =>
    intro r a b
    rw [copyLoop]
    split
    · split
      · simp [countSetActive, Ev.isSetActive]
      · split
        · simp [countSetActive, Ev.isSetActive]
        · simp only []
          rw [countSetActive, List.countP_cons, List.countP_cons]
          have := ih (r - copyChunkSz r) (a + copyChunkSz r) (b + copyChunkSz r)
          rw [countSetActive] at this
          simp [this, Ev.isSetActive]
    · simp [countSetActive]

theorem tmd_copy_slot_status (P : Ports) (src dst : Slot) :
    (tmd_copy_slot P src dst).1 = .ok ∨ (tmd_copy_slot P src dst).1 = .errFlash := by
  rw [tmd_copy_slot]
  split
  · simp
  · simpa using copyLoop_status P src dst src.size src.size 0 0

theorem tmd_copy_slot_no_setActive (P : Ports) (src dst : Slot) :
    countSetActive (tmd_copy_slot P src dst).2 = 0 := by
  rw [tmd_copy_slot]
  split
  · simp [countSetActive, Ev.isSetActive]
  · simp only []
    rw [countSetActive, List.countP_cons]
    have := copyLoop_no_setActive P src dst src.size src.size 0 0
    simpa [countSetActive, Ev.isSetActive] using this

theorem chunkWrite_cases (P : Ports) (sd : Slot) (ch_off data_len : Nat)
    (res : ChunkRes) (h : chunkWrite P sd ch_off data_len = res) :
    (res = .err .errParam []) ∨
    (∃ a, res = .err .errFlash [.write a data_len]) ∨
    (∃ a, res = .cont data_len [.write a data_len]) := by
  unfold chunkWrite at h
  split at h
  · exact Or.inl h.symm
  · split at h
    · exact Or.inr (Or.inl ⟨_, h.symm⟩)
    · exact Or.inr (Or.inr ⟨_, h.symm⟩)

theorem chunkDecodeWrite_cases (cfg : BuildCfg) (P : Ports) (sd : Slot)
    (enc_data : List Nat) (ch_off ch_len ch_enc : Nat) (res : ChunkRes)
    (h : chunkDecodeWrite cfg P sd enc_data ch_off ch_len ch_enc = res) :
    (∃ st, res = .err st [] ∧ st ≠ .errIntegrity ∧ st ≠ .ok) ∨
    res = .ub [] ∨
    (∃ a l, res = .err .errFlash [.write a l]) ∨
    (∃ n a, res = .cont n [.write a n]) := by
  unfold chunkDecodeWrite at h
  split at h
  · rcases chunkWrite_cases P sd ch_off ch_len res h with h1 | ⟨a, h1⟩ | ⟨a, h1⟩
    · exact Or.inl ⟨_, h1, by decide, by decide⟩
    · exact Or.inr (Or.inr (Or.inl ⟨_, _, h1⟩))
    · exact Or.inr (Or.inr (Or.inr ⟨_, _, h1⟩))
  · split at h
    · split at h
      · next out heq =>
        rcases chunkWrite_cases P sd ch_off out.length res h with h1 | ⟨a, h1⟩ | ⟨a, h1⟩
        · exact Or.inl ⟨_, h1, by decide, by decide⟩
        · exact Or.inr (Or.inr (Or.inl ⟨_, _, h1⟩))
        · exact Or.inr (Or.inr (Or.inr ⟨_, _, h1⟩))
      · exact Or.inl ⟨_, h.symm, by decide, by decide⟩
      · exact Or.inr (Or.inl h.symm)
    · exact Or.inl ⟨_, h.symm, by decide, by decide⟩


theorem contWithOff_cdw_cases (off3 : Nat) (cfg : BuildCfg) (P : Ports)
    (sd : Slot) (ed : List Nat) (co cl ce : Nat) (res : ChunkRes)
    (h : contWithOff off3 (chunkDecodeWrite cfg P sd ed co cl ce) = res) :
    (∃ st evs, res = .err st evs ∧ st ≠ .ok ∧ st ≠ .errIntegrity ∧
      (evs = [] ∨ ∃ a l, evs = [.write a l])) ∨
    (res = .ub []) ∨
    (∃ a l, res = .cont off3 [.write a l]) := by
  have hc := chunkDecodeWrite_cases cfg P sd ed co cl ce _ rfl
  rcases hc with ⟨st3, h1, h2, h3⟩ | h1 | ⟨a, l, h1⟩ | ⟨n, a, h1⟩ <;>
    rw [h1] at h <;> simp only [contWithOff] at h
  · exact Or.inl ⟨_, _, h.symm, h3, h2, Or.inl rfl⟩
  · exact Or.inr (Or.inl h.symm)
  · exact Or.inl ⟨_, _, h.symm, by decide, by decide, Or.inr ⟨_, _, rfl⟩⟩
  · exact Or.inr (Or.inr ⟨_, _, h.symm⟩)

theorem processChunk_cases (cfg : BuildCfg) (P : Ports) (sd : Slot)
    (patch : List Nat) (off : Nat) (res : ChunkRes)
    (h : processChunk cfg P sd patch off = res) :
    (∃ st evs, res = .err st evs ∧ st ≠ .ok ∧
      (evs = [] ∨ ∃ a l, evs = [.write a l])) ∨
    (res = .ub []) ∨
    (∃ n a l, res = .cont n [.write a l]) := by
  simp only [processChunk] at h
  repeat' split at h
  all_goals first
    | exact Or.inl ⟨_, _, h.symm, by decide, Or.inl rfl⟩
    | (rcases contWithOff_cdw_cases _ _ _ _ _ _ _ _ _ h with
        ⟨st, evs, h1, h2, h3, h4⟩ | h1 | ⟨a, l, h1⟩
       · exact Or.inl ⟨_, _, h1, h2, h4⟩
       · exact Or.inr (Or.inl h1)
       · exact Or.inr (Or.inr ⟨_, _, _, h1⟩))

theorem processChunk_err_no_crc32 (cfg : BuildCfg) (P : Ports) (sd : Slot)
    (patch : List Nat) (off : Nat) (st : Status) (evs : List Ev)
    (hnone : P.crc32 = none)
    (h : processChunk cfg P sd patch off = .err st evs) :
    st ≠ .errIntegrity := by
  simp only [processChunk] at h
  repeat' split at h
  all_goals try (simp only [ChunkRes.err.injEq] at h; rw [← h.1]; decide)
  all_goals first
    | (next hc => exact absurd hc.2.2 (by simp [hnone]))
    | (rcases contWithOff_cdw_cases _ _ _ _ _ _ _ _ _ h with
        ⟨st2, evs2, h1, h2, h3, h4⟩ | h1 | ⟨a, l, h1⟩
       · rw [ChunkRes.err.injEq] at h1
         rw [h1.1]
         exact h3
       · simp at h1
       · simp at h1)


theorem prependEvs_events (pre : List Ev) (r : LoopRes) :
    (prependEvs pre r).events = pre ++ r.events := by
  cases r <;> simp [prependEvs, LoopRes.events]

theorem applyChunks_no_setActive (cfg : BuildCfg) (P : Ports) (sd : Slot)
    (patch : List Nat) :
    ∀ (k idx off : Nat) (j : Journal),
    countSetActive (applyChunks cfg P sd patch k idx off j).events = 0 := by
  intro k
  induction k with
  | zero => intro idx off j; simp [applyChunks, LoopRes.events, countSetActive]
  | succ k ih =>
    intro idx off j
    rw [applyChunks]
    rcases hpc : processChunk cfg P sd patch off with ⟨st2, evs2⟩ | ⟨evs2⟩ | ⟨off2, evs2⟩ <;>
      simp only []
    · rcases processChunk_cases _ _ _ _ _ _ hpc with
        ⟨st3, evs3, hx, _, hsh⟩ | hx | ⟨n2, a, l, hx⟩ <;> simp_all [LoopRes.events]
      rcases hsh with hsh | ⟨a, l, hsh⟩ <;> simp [hsh, countSetActive, Ev.isSetActive]
    · rcases processChunk_cases _ _ _ _ _ _ hpc with
        ⟨st3, evs3, hx, _, hsh⟩ | hx | ⟨n2, a, l, hx⟩ <;>
        simp_all [LoopRes.events, countSetActive]
    · rw [prependEvs_events, countSetActive_append]
      rw [ih (idx + 1) off2 { j with next_chunk_idx := idx + 1 }]
      rcases processChunk_cases _ _ _ _ _ _ hpc with
        ⟨st3, evs3, hx, _, _⟩ | hx | ⟨n2, a, l, hx⟩ <;> simp_all
      split <;> simp [countSetActive, Ev.isSetActive]

theorem applyChunks_done_writes (cfg : BuildCfg) (P : Ports) (sd : Slot)
    (patch : List Nat) :
    ∀ (k idx off : Nat) (j : Journal) (evs : List Ev),
    applyChunks cfg P sd patch k idx off j = .done evs →
    countWrites evs = k := by
  intro k
  induction k with
  | zero =>
    intro idx off j evs h
    rw [applyChunks] at h
    simp only [LoopRes.done.injEq] at h
    simp [← h, countWrites]
  | succ k ih =>
    intro idx off j evs h
    rw [applyChunks] at h
    rcases hpc : processChunk cfg P sd patch off with ⟨st2, evs2⟩ | ⟨evs2⟩ | ⟨off2, evs2⟩ <;>
      rw [hpc] at h <;> simp only [] at h
    · simp at h
    · simp at h
    · rcases hrec : applyChunks cfg P sd patch k (idx + 1) off2
          { j with next_chunk_idx := idx + 1 } with ⟨st3, evs3⟩ | ⟨evs3⟩ | ⟨evs3⟩ <;>
        rw [hrec] at h <;> simp only [prependEvs, LoopRes.done.injEq] at h
      · simp at h
      · simp at h
      · rw [← h, countWrites_append]
        have h1 := ih _ _ _ _ hrec
        rcases processChunk_cases _ _ _ _ _ _ hpc with
          ⟨st3, evs4, hx, _, _⟩ | hx | ⟨n2, a, l, hx⟩
        · simp at hx
        · simp at hx
        · rw [ChunkRes.cont.injEq] at hx
          have hw : countWrites (if cfg.feat_journal = true then
              evs2 ++ [Ev.journalWrite { j with next_chunk_idx := idx + 1 }]
              else evs2) = 1 := by
            rw [hx.2]
            split <;> simp [countWrites, Ev.isWrite, List.countP_append, List.countP_cons]
          rw [hw, h1]
          omega

theorem applyChunks_err_no_crc32 (cfg : BuildCfg) (P : Ports) (sd : Slot)
    (patch : List Nat) (hnone : P.crc32 = none) :
    ∀ (k idx off : Nat) (j : Journal) (st : Status) (evs : List Ev),
    applyChunks cfg P sd patch k idx off j = .err st evs →
    st ≠ .errIntegrity := by
  intro k
  induction k with
  | zero =>
    intro idx off j st evs h
    rw [applyChunks] at h
    simp at h
  | succ k ih =>
    intro idx off j st evs h
    rw [applyChunks] at h
    rcases hpc : processChunk cfg P sd patch off with ⟨st2, evs2⟩ | ⟨evs2⟩ | ⟨off2, evs2⟩ <;>
      rw [hpc] at h <;> simp only [] at h
    · rw [LoopRes.err.injEq] at h
      rw [← h.1]
      exact processChunk_err_no_crc32 _ _ _ _ _ _ _ hnone hpc
    · simp at h
    · rcases hrec : applyChunks cfg P sd patch k (idx + 1) off2
          { j with next_chunk_idx := idx + 1 } with ⟨st3, evs3⟩ | ⟨evs3⟩ | ⟨evs3⟩ <;>
        rw [hrec] at h <;> simp only [prependEvs, LoopRes.err.injEq] at h
      · rw [← h.1]
        exact ih _ _ _ _ _ hrec
      · simp at h
      · simp at h

theorem applyChunks_err_not_ok (cfg : BuildCfg) (P : Ports) (sd : Slot)
    (patch : List Nat) :
    ∀ (k idx off : Nat) (j : Journal) (st : Status) (evs : List Ev),
    applyChunks cfg P sd patch k idx off j = .err st evs →
    st ≠ .ok := by
  intro k
  induction k with
  | zero =>
    intro idx off j st evs h
    rw [applyChunks] at h
    simp at h
  | succ k ih =>
    intro idx off j st evs h
    rw [applyChunks] at h
    rcases hpc : processChunk cfg P sd patch off with ⟨st2, evs2⟩ | ⟨evs2⟩ | ⟨off2, evs2⟩ <;>
      rw [hpc] at h <;> simp only [] at h
    · rw [LoopRes.err.injEq] at h
      rw [← h.1]
      rcases processChunk_cases _ _ _ _ _ _ hpc with
        ⟨st3, evs3, hx, hne, _⟩ | hx | ⟨n2, a, l, hx⟩ <;> simp_all
    · simp at h
    · rcases hrec : applyChunks cfg P sd patch k (idx + 1) off2
          { j with next_chunk_idx := idx + 1 } with ⟨st3, evs3⟩ | ⟨evs3⟩ | ⟨evs3⟩ <;>
        rw [hrec] at h <;> simp only [prependEvs, LoopRes.err.injEq] at h
      · rw [← h.1]
        exact ih _ _ _ _ _ hrec
      · simp at h
      · simp at h

theorem applyChunks_journal_target (cfg : BuildCfg) (P : Ports) (sd : Slot)
    (patch : List Nat) :
    ∀ (k idx off : Nat) (j : Journal) (jw : Journal),
    Ev.journalWrite jw ∈ (applyChunks cfg P sd patch k idx off j).events →
    jw.target_slot = j.target_slot := by
  intro k
  induction k with
  | zero =>
    intro idx off j jw hmem
    simp [applyChunks, LoopRes.events] at hmem
  | succ k ih =>
    intro idx off j jw hmem
    rw [applyChunks] at hmem
    rcases hpc : processChunk cfg P sd patch off with ⟨st2, evs2⟩ | ⟨evs2⟩ | ⟨off2, evs2⟩ <;>
      rw [hpc] at hmem <;> simp only [] at hmem
    · rcases processChunk_cases _ _ _ _ _ _ hpc with
        ⟨st3, evs3, hx, _, hsh⟩ | hx | ⟨n2, a, l, hx⟩ <;> simp_all [LoopRes.events]
      rcases hsh with hsh | ⟨a, l, hsh⟩ <;> simp_all
    · rcases processChunk_cases _ _ _ _ _ _ hpc with
        ⟨st3, evs3, hx, _, hsh⟩ | hx | ⟨n2, a, l, hx⟩ <;> simp_all [LoopRes.events]
    · rw [prependEvs_events] at hmem
      rcases List.mem_append.mp hmem with hm | hm
      · rcases processChunk_cases _ _ _ _ _ _ hpc with
          ⟨st3, evs3, hx, _, _⟩ | hx | ⟨n2, a, l, hx⟩ <;> simp_all
        split at hm <;> simp_all
      · have := ih _ _ _ _ hm
        simpa using this

theorem tmd_check_guardrails_status (fw : FwCfg) (m : MetaState) :
    tmd_check_guardrails fw m = .ok ∨ tmd_check_guardrails fw m = .errGuardrail := by
  unfold tmd_check_guardrails
  split_ifs <;> simp

theorem tmd_apply_cases (cfg : BuildCfg) (fw : FwCfg) (P : Ports) (L : Layout)
    (patch : List Nat) (res : AppRes)
    (h : tmd_apply_patch_from_memory cfg fw P L patch = res) :
    (∃ st, res = .ret st [] ∧ st ≠ .ok ∧ st ≠ .errIntegrity ∧ st ≠ .errFlash) ∨
    (∃ evsC, tmd_copy_slot P (slot_src_of P L) (slot_dst_of P L) = (.errFlash, evsC) ∧
      res = .ret .errFlash evsC) ∨
    (∃ evsC evsL st, tmd_copy_slot P (slot_src_of P L) (slot_dst_of P L) = (.ok, evsC) ∧
      applyChunks cfg P (slot_dst_of P L) patch (le16 patch 2) 0 (80 + le16 patch 76)
        (journalSetup (if cfg.feat_journal then P.journal_read else none)
          (inactive_of P)) = .err st evsL ∧
      res = .ret st (evsC ++ evsL)) ∨
    (∃ evsC evsL, tmd_copy_slot P (slot_src_of P L) (slot_dst_of P L) = (.ok, evsC) ∧
      applyChunks cfg P (slot_dst_of P L) patch (le16 patch 2) 0 (80 + le16 patch 76)
        (journalSetup (if cfg.feat_journal then P.journal_read else none)
          (inactive_of P)) = .ub evsL ∧
      res = .ub (evsC ++ evsL)) ∨
    (∃ evsC evsL, tmd_copy_slot P (slot_src_of P L) (slot_dst_of P L) = (.ok, evsC) ∧
      applyChunks cfg P (slot_dst_of P L) patch (le16 patch 2) 0 (80 + le16 patch 76)
        (journalSetup (if cfg.feat_journal then P.journal_read else none)
          (inactive_of P)) = .done evsL ∧
      res = .ret (if P.set_active_slot (inactive_of P) then .ok else .errFlash)
        (evsC ++ evsL ++ (if cfg.feat_journal then [Ev.journalClear] else []) ++
          [Ev.setActive (inactive_of P)])) := by
  simp only [tmd_apply_patch_from_memory] at h
  split at h
  · exact Or.inl ⟨_, h.symm, by decide, by decide, by decide⟩
  · split at h
    · exact Or.inl ⟨_, h.symm, by decide, by decide, by decide⟩
    · split at h
      · exact Or.inl ⟨_, h.symm, by decide, by decide, by decide⟩
      · split at h
        · exact Or.inl ⟨_, h.symm, by decide, by decide, by decide⟩
        · split at h
          · exact Or.inl ⟨_, h.symm, by decide, by decide, by decide⟩
          · next meta hmeta =>
            split at h
            · next hguard =>
              rcases tmd_check_guardrails_status fw meta with hg | hg
              · exact absurd hg hguard
              · rw [hg] at h
                exact Or.inl ⟨_, h.symm, by decide, by decide, by decide⟩
            · split at h
              · exact Or.inl ⟨_, h.symm, by decide, by decide, by decide⟩
              · split at h
                · next evsC hcopy =>
                  split at h
                  · next st evsL hloop =>
                    exact Or.inr (Or.inr (Or.inl ⟨_, _, _, hcopy, hloop, h.symm⟩))
                  · next evsL hloop =>
                    exact Or.inr (Or.inr (Or.inr (Or.inl ⟨_, _, hcopy, hloop, h.symm⟩)))
                  · next evsL hloop =>
                    split at h
                    · next hset =>
                      refine Or.inr (Or.inr (Or.inr (Or.inr ⟨_, _, hcopy, hloop, ?_⟩)))
                      rw [if_pos hset]
                      exact h.symm
                    · next hset =>
                      refine Or.inr (Or.inr (Or.inr (Or.inr ⟨_, _, hcopy, hloop, ?_⟩)))
                      rw [if_neg hset]
                      exact h.symm
                · next stC evsC hne hcopy =>
                  rcases tmd_copy_slot_status P (slot_src_of P L) (slot_dst_of P L) with hs | hs
                  · rw [hcopy] at hs
                    simp at hs
                    exact absurd hs hne
                  · rw [hcopy] at hs
                    simp at hs
                    rw [hs] at hcopy h
                    exact Or.inr (Or.inl ⟨_, hcopy, h.symm⟩)

/-- Claim C1 (counterexample).  A zero firmware constant does NOT disable
the arena or ABI guardrail: with `TMD_FIRMWARE_ARENA_BYTES = 0` a patch
asserting `req_arena_bytes = 1` (all other metadata zero, so no other
check can fire) is rejected with `ERR_GUARDRAIL`, and likewise
`TMD_FIRMWARE_TFLM_ABI = 0` with `tflm_abi = 1`. -/
theorem guardrails_zero_firmware_rejects :
    tmd_check_guardrails ⟨0, 1, 0, 0, false⟩ ⟨1, 0, 0, 0⟩ = .errGuardrail ∧
    tmd_check_guardrails ⟨65536, 0, 0, 0, false⟩ ⟨0, 1, 0, 0⟩ = .errGuardrail := by
  decide

/-- Claim C2 (code bug, evaluated at the failing input).  The chunk
bounds check `ch->off + data_len > slot_dst->size` is `uint32`
arithmetic: for a RAW chunk with `off = 0xFFFFFFFF`, `len = 2` against a
256-byte destination slot at address 4096, `(0xFFFFFFFF + 2) mod 2^32 =
1 ≤ 256` passes, the apply succeeds, and the chunk-phase `flash_write`
is issued at wrapped address 4095 — outside the destination slot
`[4096, 4352)` — while the unbounded sum `off + decoded_len` exceeds the
slot size, contradicting the claimed invariant. -/
theorem chunk_bounds_uint32_wrap :
    tmd_apply_patch_from_memory cfgDefault fwDefault portsOk layout256 patchWrapOff =
      .ret .ok [.erase 4096 256, .readFlash 0 256, .write 4096 256, .write 4095 2,
        .journalWrite ⟨TMD_JOURNAL_MAGIC, 0, 1, 1⟩, .journalClear, .setActive 1] ∧
    le32 patchWrapOff 80 + 2 > (slot_dst_of portsOk layout256).size ∧
    ¬ ((slot_dst_of portsOk layout256).addr ≤ 4095 ∧
       4095 + 2 ≤ (slot_dst_of portsOk layout256).addr +
         (slot_dst_of portsOk layout256).size) := by
  refine ⟨by decide, by decide, by decide⟩

/-- Claim C7 (code bug, evaluated at the failing input).  For an input
buffer of odd length the trailing byte is NOT ignored: the loop guard
`i + 1 <= in_len` still admits the final single byte, and the decoder
reads input index `in_len` — one byte past the end of the buffer
(undefined behaviour) — instead of producing the result of decoding the
first `in_len - 1` bytes (which for `in_len = 1` would be `ok []`). -/
theorem rle_odd_length_reads_past_end :
    tmd_rle_decode true [2] 1 1024 = .oobRead 1 ∧
    tmd_rle_decode true [] 0 1024 = .ok [] := by decide

/-- Claim C5 (counterexample).  A persisted journal that is valid
(`magic` matches) but whose `target_slot` (0) differs from the inactive
slot about to be written (1) is NOT re-initialized: the apply keeps the
record (updating only `next_chunk_idx`), so the journal written during
the run carries `target_slot = 0 ≠ 1`. -/
theorem journal_stale_target_kept :
    tmd_apply_patch_from_memory cfgDefault fwDefault portsStaleJournal layout256 patchRaw4 =
      .ret .ok [.erase 4096 256, .readFlash 0 256, .write 4096 256, .write 4096 4,
        .journalWrite ⟨TMD_JOURNAL_MAGIC, 7, 1, 0⟩, .journalClear, .setActive 1] ∧
    inactive_of portsStaleJournal = 1 ∧
    staleJournal.magic = TMD_JOURNAL_MAGIC ∧
    (⟨TMD_JOURNAL_MAGIC, 7, 1, 0⟩ : Journal).target_slot ≠ inactive_of portsStaleJournal := by
  refine ⟨by decide, by decide, by decide, by decide⟩

set_option maxRecDepth 100000 in
/-- Claim C6 (counterexample).  A RAW chunk is not bounded by the
scratch capacity: a 1025-byte RAW payload (> `TMD_SCRATCH_SZ = 1024`) is
written to flash and the apply returns `OK`, rather than being
rejected. -/
theorem raw_chunk_exceeds_scratch_written :
    tmd_apply_patch_from_memory cfgDefault fwDefault portsOk layout2048 patchRaw1025 =
      .ret .ok [.erase 4096 2048, .readFlash 0 1024, .write 4096 1024,
        .readFlash 1024 1024, .write 5120 1024, .write 4096 1025,
        .journalWrite ⟨TMD_JOURNAL_MAGIC, 0, 1, 1⟩, .journalClear, .setActive 1] ∧
    1025 > TMD_SCRATCH_SZ := by
  refine ⟨by decide, by decide⟩

/-- Claim C1 (amended).  Exact characterization of `tmd_check_guardrails`:
the arena and ABI checks are disabled by a zero in the METADATA field
(`req_arena_bytes = 0` / `tflm_abi = 0`), not by a zero firmware
constant; only the opset hash (and, when enforced, the IO hash) checks
are additionally disabled by a zero firmware constant.  With a zero
firmware constant and a positive metadata value, the arena/ABI checks
reject. -/
theorem tmd_check_guardrails_characterization (fw : FwCfg) (m : MetaState) :
    tmd_check_guardrails fw m = .ok ↔
      ((m.req_arena_bytes = 0 ∨ m.req_arena_bytes ≤ fw.arena_bytes) ∧
       (m.tflm_abi = 0 ∨ m.tflm_abi ≤ fw.tflm_abi) ∧
       (fw.opset_hash = 0 ∨ m.opset_hash = 0 ∨ m.opset_hash = fw.opset_hash) ∧
       (fw.enforce_io = true →
         fw.io_hash = 0 ∨ m.io_hash = 0 ∨ m.io_hash = fw.io_hash)) := by
  unfold tmd_check_guardrails
  split_ifs with h1 h2 h3 h4
  · refine iff_of_false (by decide) ?_
    rintro ⟨c1, -, -, -⟩
    omega
  · refine iff_of_false (by decide) ?_
    rintro ⟨-, c2, -, -⟩
    omega
  · refine iff_of_false (by decide) ?_
    rintro ⟨-, -, c3, -⟩
    omega
  · refine iff_of_false (by decide) ?_
    rintro ⟨-, -, -, c4⟩
    have := c4 h4.1
    rcases h4 with ⟨-, h4⟩
    omega
  · refine iff_of_true rfl ⟨by omega, by omega, by omega, ?_⟩
    intro he
    have h5 : ¬ (fw.io_hash ≠ 0 ∧ m.io_hash ≠ 0 ∧ m.io_hash ≠ fw.io_hash) :=
      fun hc => h4 ⟨he, hc⟩
    omega

theorem countSetActive_jc (b : Bool) :
    countSetActive (if b then [Ev.journalClear] else []) = 0 := by
  split <;> simp [countSetActive, Ev.isSetActive]

theorem finalActive_setActive_last (P : Ports) (a s : Nat) (l : List Ev) :
    finalActive P a (l ++ [Ev.setActive s]) =
      if P.set_active_slot s then s else finalActive P a l := by
  rw [finalActive_append]
  simp [finalActive]

/-- Claim C4.  Whenever `tmd_apply_patch_from_memory` returns a status
other than `OK`, the active-slot indicator is unchanged: replaying the
trace of port calls against the port (a failed `set_active_slot` is an
atomic commit that does not change the indicator,
`tinymldelta_ports.h:137`) yields the same value `get_active_slot`
returned before the call. -/
theorem failed_apply_preserves_active_slot (cfg : BuildCfg) (fw : FwCfg)
    (P : Ports) (L : Layout) (patch : List Nat) (st : Status) (evs : List Ev)
    (h : tmd_apply_patch_from_memory cfg fw P L patch = .ret st evs)
    (hne : st ≠ .ok) :
    finalActive P P.get_active_slot evs = P.get_active_slot := by
  rcases tmd_apply_cases cfg fw P L patch _ h with
    ⟨st2, h1, _, _, _⟩ | ⟨evsC, hcopy, h1⟩ | ⟨evsC, evsL, st2, hcopy, hloop, h1⟩ |
    ⟨evsC, evsL, hcopy, hloop, h1⟩ | ⟨evsC, evsL, hcopy, hloop, h1⟩
  · rw [AppRes.ret.injEq] at h1
    rw [h1.2]
    rfl
  · rw [AppRes.ret.injEq] at h1
    rw [h1.2]
    refine finalActive_of_no_setActive P _ ?_
    have := tmd_copy_slot_no_setActive P (slot_src_of P L) (slot_dst_of P L)
    rw [hcopy] at this
    exact this
  · rw [AppRes.ret.injEq] at h1
    rw [h1.2]
    refine finalActive_of_no_setActive P _ ?_
    rw [countSetActive_append]
    have hc : countSetActive evsC = 0 := by
      have := tmd_copy_slot_no_setActive P (slot_src_of P L) (slot_dst_of P L)
      rw [hcopy] at this
      exact this
    have hl := applyChunks_no_setActive cfg P (slot_dst_of P L) patch
      (le16 patch 2) 0 (80 + le16 patch 76)
      (journalSetup (if cfg.feat_journal then P.journal_read else none) (inactive_of P))
    have hl2 : countSetActive evsL = 0 := by
      rw [hloop] at hl
      exact hl
    omega
  · simp at h1
  · rw [AppRes.ret.injEq] at h1
    have hset : P.set_active_slot (inactive_of P) = false := by
      by_contra hs
      rw [Bool.not_eq_false] at hs
      rw [if_pos hs] at h1
      exact hne h1.1
    rw [h1.2]
    rw [show evsC ++ evsL ++ (if cfg.feat_journal then [Ev.journalClear] else []) ++
        [Ev.setActive (inactive_of P)] =
      (evsC ++ evsL ++ (if cfg.feat_journal then [Ev.journalClear] else [])) ++
        [Ev.setActive (inactive_of P)] by simp]
    rw [finalActive_setActive_last, hset]
    simp only [Bool.false_eq_true, if_false]
    refine finalActive_of_no_setActive P _ ?_
    rw [countSetActive_append, countSetActive_append]
    have hc : countSetActive evsC = 0 := by
      have := tmd_copy_slot_no_setActive P (slot_src_of P L) (slot_dst_of P L)
      rw [hcopy] at this
      exact this
    have hl := applyChunks_no_setActive cfg P (slot_dst_of P L) patch
      (le16 patch 2) 0 (80 + le16 patch 76)
      (journalSetup (if cfg.feat_journal then P.journal_read else none) (inactive_of P))
    have hl2 : countSetActive evsL = 0 := by
      rw [hloop] at hl
      exact hl
    rw [countSetActive_jc]
    omega

/-- Claim C3.  In every execution of `tmd_apply_patch_from_memory` the
port's `set_active_slot` is invoked at most once; and whenever it is
invoked, the trace ends with that single call, immediately preceded by
`journal_clear` when journaling is enabled, after the chunk loop
completed all `chunks_n` iterations (`.done`, with exactly `chunks_n`
chunk-phase flash writes) — so it is never invoked on an execution that
fails before the commit step. -/
theorem set_active_commit_discipline (cfg : BuildCfg) (fw : FwCfg) (P : Ports)
    (L : Layout) (patch : List Nat) :
    countSetActive (tmd_apply_patch_from_memory cfg fw P L patch).events ≤ 1 ∧
    (∀ (st : Status) (evs : List Ev) (s : Nat),
      tmd_apply_patch_from_memory cfg fw P L patch = .ret st evs →
      Ev.setActive s ∈ evs →
      ∃ evsC evsL,
        evs = evsC ++ evsL ++ (if cfg.feat_journal then [Ev.journalClear] else []) ++
          [Ev.setActive (inactive_of P)] ∧
        tmd_copy_slot P (slot_src_of P L) (slot_dst_of P L) = (.ok, evsC) ∧
        applyChunks cfg P (slot_dst_of P L) patch (le16 patch 2) 0 (80 + le16 patch 76)
          (journalSetup (if cfg.feat_journal then P.journal_read else none)
            (inactive_of P)) = .done evsL ∧
        countWrites evsL = le16 patch 2 ∧
        countSetActive (evsC ++ evsL) = 0) := by
  have hcount : ∀ evsC evsL,
      tmd_copy_slot P (slot_src_of P L) (slot_dst_of P L) = (.ok, evsC) →
      (applyChunks cfg P (slot_dst_of P L) patch (le16 patch 2) 0 (80 + le16 patch 76)
        (journalSetup (if cfg.feat_journal then P.journal_read else none)
          (inactive_of P))).events = evsL →
      countSetActive (evsC ++ evsL) = 0 := by
    intro evsC evsL hcopy hloop
    rw [countSetActive_append]
    have hc : countSetActive evsC = 0 := by
      have := tmd_copy_slot_no_setActive P (slot_src_of P L) (slot_dst_of P L)
      rw [hcopy] at this
      exact this
    have hl : countSetActive evsL = 0 := by
      rw [← hloop]
      exact applyChunks_no_setActive cfg P (slot_dst_of P L) patch
        (le16 patch 2) 0 (80 + le16 patch 76) _
    omega
  constructor
  · rcases tmd_apply_cases cfg fw P L patch _ rfl with
      ⟨st2, h1, _, _, _⟩ | ⟨evsC, hcopy, h1⟩ | ⟨evsC, evsL, st2, hcopy, hloop, h1⟩ |
      ⟨evsC, evsL, hcopy, hloop, h1⟩ | ⟨evsC, evsL, hcopy, hloop, h1⟩ <;>
      rw [h1] <;> simp only [AppRes.events]
    · simp [countSetActive]
    · have hc : countSetActive evsC = 0 := by
        have := tmd_copy_slot_no_setActive P (slot_src_of P L) (slot_dst_of P L)
        rw [hcopy] at this
        exact this
      omega
    · rw [hcount evsC evsL hcopy (by rw [hloop]; rfl)]
      omega
    · rw [hcount evsC evsL hcopy (by rw [hloop]; rfl)]
      omega
    · rw [countSetActive_append, countSetActive_append,
        hcount evsC evsL hcopy (by rw [hloop]; rfl), countSetActive_jc]
      simp [countSetActive, Ev.isSetActive]
  · intro st evs s happly hmem
    rcases tmd_apply_cases cfg fw P L patch _ happly with
      ⟨st2, h1, _, _, _⟩ | ⟨evsC, hcopy, h1⟩ | ⟨evsC, evsL, st2, hcopy, hloop, h1⟩ |
      ⟨evsC, evsL, hcopy, hloop, h1⟩ | ⟨evsC, evsL, hcopy, hloop, h1⟩
    · rw [AppRes.ret.injEq] at h1
      rw [h1.2] at hmem
      simp at hmem
    · rw [AppRes.ret.injEq] at h1
      have hc : countSetActive evsC = 0 := by
        have := tmd_copy_slot_no_setActive P (slot_src_of P L) (slot_dst_of P L)
        rw [hcopy] at this
        exact this
      rw [h1.2] at hmem
      have := countSetActive_pos_of_mem hmem
      omega
    · rw [AppRes.ret.injEq] at h1
      rw [h1.2] at hmem
      have := countSetActive_pos_of_mem hmem
      rw [hcount evsC evsL hcopy (by rw [hloop]; rfl)] at this
      omega
    · simp at h1
    · rw [AppRes.ret.injEq] at h1
      refine ⟨evsC, evsL, h1.2, hcopy, hloop, ?_, hcount evsC evsL hcopy (by rw [hloop]; rfl)⟩
      exact applyChunks_done_writes cfg P (slot_dst_of P L) patch _ _ _ _ _ hloop

/-- Claim C10.  In a CRC32 build with a null `crc32` port capability,
`ERR_INTEGRITY` is unreachable: no return of
`tmd_apply_patch_from_memory` carries it; and a chunk whose stored CRC
is wrong (`0xDEAD`, so the skipped comparison would have failed had the
capability been present) is parsed, skipped and written to flash, the
apply returning `OK`. -/
theorem null_crc32_skips_verification :
    (∀ (cfg : BuildCfg) (fw : FwCfg) (P : Ports) (L : Layout) (patch : List Nat)
      (st : Status) (evs : List Ev), P.crc32 = none →
      tmd_apply_patch_from_memory cfg fw P L patch = .ret st evs →
      st ≠ .errIntegrity) ∧
    (tmd_apply_patch_from_memory cfgDefault fwDefault portsNoCrc layout256 patchBadCrc =
      .ret .ok [.erase 4096 256, .readFlash 0 256, .write 4096 256, .write 4096 2,
        .journalWrite ⟨TMD_JOURNAL_MAGIC, 0, 1, 1⟩, .journalClear, .setActive 1] ∧
     le32 patchBadCrc 88 ≠ 0 ∧ portsNoCrc.crc32 = none) := by
  constructor
  · intro cfg fw P L patch st evs hnone happly
    rcases tmd_apply_cases cfg fw P L patch _ happly with
      ⟨st2, h1, _, hni, _⟩ | ⟨evsC, hcopy, h1⟩ | ⟨evsC, evsL, st2, hcopy, hloop, h1⟩ |
      ⟨evsC, evsL, hcopy, hloop, h1⟩ | ⟨evsC, evsL, hcopy, hloop, h1⟩
    · rw [AppRes.ret.injEq] at h1
      rw [h1.1]
      exact hni
    · rw [AppRes.ret.injEq] at h1
      rw [h1.1]
      decide
    · rw [AppRes.ret.injEq] at h1
      rw [h1.1]
      exact applyChunks_err_no_crc32 cfg P (slot_dst_of P L) patch hnone
        _ _ _ _ _ _ hloop
    · simp at h1
    · rw [AppRes.ret.injEq] at h1
      rw [h1.1]
      split <;> decide
  · refine ⟨by decide, by decide, rfl⟩

/-- Claim C5 (amended).  On entry the journal is re-initialized to
`{magic, patch_id = 0, next_chunk_idx = 0, target_slot = inactive}`
exactly when `journal_read` fails or the magic is invalid; a valid
record is kept unchanged regardless of its `target_slot`, and every
`journal_write` during the chunk loop preserves the `target_slot` of the
record set up on entry. -/
theorem journal_resume_semantics :
    (∀ (j : Journal) (inactive : Nat), j.magic = TMD_JOURNAL_MAGIC →
      journalSetup (some j) inactive = j) ∧
    (∀ (j : Journal) (inactive : Nat), j.magic ≠ TMD_JOURNAL_MAGIC →
      journalSetup (some j) inactive =
        ⟨TMD_JOURNAL_MAGIC, 0, 0, inactive⟩) ∧
    (∀ inactive : Nat, journalSetup none inactive =
      ⟨TMD_JOURNAL_MAGIC, 0, 0, inactive⟩) ∧
    (∀ (cfg : BuildCfg) (P : Ports) (sd : Slot) (patch : List Nat)
      (k idx off : Nat) (j jw : Journal),
      Ev.journalWrite jw ∈ (applyChunks cfg P sd patch k idx off j).events →
      jw.target_slot = j.target_slot) := by
  refine ⟨?_, ?_, ?_, ?_⟩
  · intro j inactive h
    simp [journalSetup, h]
  · intro j inactive h
    simp [journalSetup, h]
  · intro inactive
    simp [journalSetup]
  · intro cfg P sd patch k idx off j jw hmem
    exact applyChunks_journal_target cfg P sd patch k idx off j jw hmem

theorem rleLoop_ok_length (inp : List Nat) (in_len out_cap : Nat) :
    ∀ (fuel i : Nat) (acc out : List Nat), acc.length ≤ out_cap →
    rleLoop inp in_len out_cap fuel i acc = .ok out →
    out.length ≤ out_cap := by
  intro fuel
  induction fuel with
  | zero =>
    intro i acc out hacc h
    rw [rleLoop] at h
    rw [RleResult.ok.injEq] at h
    rw [← h]
    exact hacc
  | succ fuel ih =>
    intro i acc out hacc h
    rw [rleLoop] at h
    split at h
    · rcases hg : inp.get? i with - | count <;> rw [hg] at h
      · exact RleResult.noConfusion h
      · rcases hg2 : inp.get? (i + 1) with - | val <;> rw [hg2] at h
        · exact RleResult.noConfusion h
        · simp only [] at h
          split at h
          case isTrue =>
            split at h
            · exact RleResult.noConfusion h
            · next hcap =>
              refine ih _ _ _ ?_ h
              simp only [not_lt] at hcap
              rw [List.length_append, List.length_replicate]
              exact hcap
          case isFalse =>
            split at h
            · exact RleResult.noConfusion h
            · next hcap =>
              refine ih _ _ _ ?_ h
              simp only [not_lt] at hcap
              rw [List.length_append, List.length_replicate]
              exact hcap
    · rw [RleResult.ok.injEq] at h
      rw [← h]
      exact hacc

/-- Claim C6 (amended).  Only RLE chunks are bounded by the scratch
capacity: every successful RLE decode into the `TMD_SCRATCH_SZ` scratch
buffer yields at most `TMD_SCRATCH_SZ` bytes, and an RLE chunk whose
decode overflows the scratch is rejected with `ERR_HDR` before any flash
write; RAW chunks bypass the scratch buffer entirely. -/
theorem rle_decoded_length_bounded :
    (∀ (feat : Bool) (inp : List Nat) (in_len : Nat) (out : List Nat),
      tmd_rle_decode feat inp in_len TMD_SCRATCH_SZ = .ok out →
      out.length ≤ TMD_SCRATCH_SZ) ∧
    (∀ (cfg : BuildCfg) (P : Ports) (sd : Slot) (ed : List Nat) (co cl : Nat),
      tmd_rle_decode cfg.feat_rle ed cl TMD_SCRATCH_SZ = .overflow →
      chunkDecodeWrite cfg P sd ed co cl 1 = .err .errHdr []) := by
  constructor
  · intro feat inp in_len out h
    unfold tmd_rle_decode at h
    split at h
    · exact rleLoop_ok_length inp in_len TMD_SCRATCH_SZ in_len 0 [] out
        (by simp) h
    · simp at h
  · intro cfg P sd ed co cl h
    unfold chunkDecodeWrite
    rw [if_neg (by decide), if_pos rfl, h]

theorem applyTlv_skip (m : MetaState) (tag len : Nat) (val : Nat → Nat)
    (h : (tag ≠ 1 ∧ tag ≠ 2 ∧ tag ≠ 3 ∧ tag ≠ 4) ∨
      (tag = 1 ∧ len ≠ 4) ∨ (tag = 2 ∧ len ≠ 2) ∨
      (tag = 3 ∧ len ≠ 4) ∨ (tag = 4 ∧ len ≠ 4)) :
    applyTlv m tag len val = m := by
  unfold applyTlv
  split_ifs <;> simp_all

/-- Claim C9.  The TLV parser starts from the all-zero `MetaState`; a
TLV whose tag is unrecognized (vendor or unknown) or whose `len` differs
from the expected width (4 for `REQ_ARENA_BYTES`, `OPSET_HASH`,
`IO_HASH`; 2 for `TFLM_ABI`) is skipped without error and leaves the
state unchanged, while a TLV whose declared `len` exceeds the remaining
bytes makes the parser return `ERR_HDR` (`none`). -/
theorem tlv_parser_skip_and_reject :
    (∀ (buf : List Nat) (meta_len fuel off : Nat) (m : MetaState),
      off + 2 ≤ meta_len →
      byteAt buf (off + 1) ≤ meta_len - (off + 2) →
      ((byteAt buf off ≠ 1 ∧ byteAt buf off ≠ 2 ∧ byteAt buf off ≠ 3 ∧
          byteAt buf off ≠ 4) ∨
       (byteAt buf off = 1 ∧ byteAt buf (off + 1) ≠ 4) ∨
       (byteAt buf off = 2 ∧ byteAt buf (off + 1) ≠ 2) ∨
       (byteAt buf off = 3 ∧ byteAt buf (off + 1) ≠ 4) ∨
       (byteAt buf off = 4 ∧ byteAt buf (off + 1) ≠ 4)) →
      parseMetaLoop buf meta_len (fuel + 1) off m =
        parseMetaLoop buf meta_len fuel (off + 2 + byteAt buf (off + 1)) m) ∧
    (∀ (buf : List Nat) (meta_len fuel off : Nat) (m : MetaState),
      off + 2 ≤ meta_len →
      byteAt buf (off + 1) > meta_len - (off + 2) →
      parseMetaLoop buf meta_len (fuel + 1) off m = none) ∧
    (∀ (buf : List Nat) (meta_len : Nat),
      tmd_parse_meta buf meta_len =
        parseMetaLoop buf meta_len meta_len 0 ⟨0, 0, 0, 0⟩) := by
  refine ⟨?_, ?_, ?_⟩
  · intro buf meta_len fuel off m h1 h2 h3
    rw [parseMetaLoop]
    rw [if_pos h1, if_neg (by omega)]
    rw [applyTlv_skip m _ _ _ h3]
  · intro buf meta_len fuel off m h1 h2
    rw [parseMetaLoop]
    rw [if_pos h1, if_pos h2]
  · intro buf meta_len
    rfl

/-- Claim C8.  In a CRC32 build with the port's `crc32` present, for a
chunk with `has_crc ≠ 0` (stored CRC and payload in range): if the CRC
computed over the `len` encoded payload bytes differs from the stored
`u32`, the chunk iteration stops with `ERR_INTEGRITY` and no flash
write, and the chunk loop of `tmd_apply_patch_from_memory` returns that
error; the iteration reaches a successful write (`cont`) only when the
two values are equal. -/
theorem chunk_crc_mismatch_rejected (cfg : BuildCfg) (P : Ports) (sd : Slot)
    (patch : List Nat) (off : Nat) (f : List Nat → Nat)
    (hfeat : cfg.feat_crc32 = true) (hcrc : P.crc32 = some f)
    (hhas : byteAt patch (off + 7) ≠ 0)
    (hb : off + 8 + 4 ≤ patch.length)
    (hbp : off + 8 + 4 + le16 patch (off + 4) ≤ patch.length) :
    (f ((patch.drop (off + 8 + 4)).take (le16 patch (off + 4))) ≠ le32 patch (off + 8) →
      processChunk cfg P sd patch off = .err .errIntegrity []) ∧
    (∀ (off2 : Nat) (evs : List Ev),
      processChunk cfg P sd patch off = .cont off2 evs →
      f ((patch.drop (off + 8 + 4)).take (le16 patch (off + 4))) = le32 patch (off + 8)) ∧
    (∀ (k idx : Nat) (j : Journal),
      processChunk cfg P sd patch off = .err .errIntegrity [] →
      applyChunks cfg P sd patch (k + 1) idx off j = .err .errIntegrity []) := by
  have key : processChunk cfg P sd patch off =
      if f ((patch.drop (off + 8 + 4)).take (le16 patch (off + 4))) ≠
          le32 patch (off + 8) then
        .err .errIntegrity []
      else
        contWithOff (off + 8 + 4 + le16 patch (off + 4))
          (chunkDecodeWrite cfg P sd (patch.drop (off + 8 + 4)) (le32 patch off)
            (le16 patch (off + 4)) (byteAt patch (off + 6))) := by
    simp only [processChunk, hfeat, hcrc, hhas, Option.map_some', Option.getD_some,
      ne_eq, not_false_iff, true_and, and_true, if_true]
    rw [if_neg (by omega), if_neg (by omega), if_neg (by omega)]
  refine ⟨?_, ?_, ?_⟩
  · intro hne
    rw [key, if_pos hne]
  · intro off2 evs h
    by_cases hne : f ((patch.drop (off + 8 + 4)).take (le16 patch (off + 4))) =
        le32 patch (off + 8)
    · exact hne
    · rw [key, if_pos hne] at h
      exact ChunkRes.noConfusion h
  · intro k idx j h
    rw [applyChunks, h]

/-- Witness for `tmd_check_guardrails_characterization` at the all-zero
metadata against the default firmware constants. -/
theorem tmd_check_guardrails_characterization_witness :
    tmd_check_guardrails fwDefault ⟨0, 0, 0, 0⟩ = .ok :=
  (tmd_check_guardrails_characterization fwDefault ⟨0, 0, 0, 0⟩).mpr (by decide)

/-- Witness for `set_active_commit_discipline` on a successful one-chunk
apply. -/
theorem set_active_commit_discipline_witness :
    ∃ evsC evsL,
      ([Ev.erase 4096 256, Ev.readFlash 0 256, Ev.write 4096 256, Ev.write 4096 4,
        Ev.journalWrite ⟨TMD_JOURNAL_MAGIC, 0, 1, 1⟩, Ev.journalClear,
        Ev.setActive 1] : List Ev) =
        evsC ++ evsL ++ (if cfgDefault.feat_journal then [Ev.journalClear] else []) ++
          [Ev.setActive (inactive_of portsOk)] ∧
      tmd_copy_slot portsOk (slot_src_of portsOk layout256)
        (slot_dst_of portsOk layout256) = (.ok, evsC) ∧
      applyChunks cfgDefault portsOk (slot_dst_of portsOk layout256) patchRaw4
        (le16 patchRaw4 2) 0 (80 + le16 patchRaw4 76)
        (journalSetup (if cfgDefault.feat_journal then portsOk.journal_read else none)
          (inactive_of portsOk)) = .done evsL ∧
      countWrites evsL = le16 patchRaw4 2 ∧
      countSetActive (evsC ++ evsL) = 0 :=
  (set_active_commit_discipline cfgDefault fwDefault portsOk layout256 patchRaw4).2
    .ok _ 1 (by decide) (by decide)

/-- Witness for `failed_apply_preserves_active_slot` on a version-rejected
patch. -/
theorem failed_apply_preserves_active_slot_witness :
    finalActive portsOk portsOk.get_active_slot [] = portsOk.get_active_slot :=
  failed_apply_preserves_active_slot cfgDefault fwDefault portsOk layout256 patchV2
    .errHdr [] (by decide) (by decide)

/-- Witness for `journal_resume_semantics` on the stale valid record. -/
theorem journal_resume_semantics_witness :
    journalSetup (some staleJournal) 1 = staleJournal :=
  journal_resume_semantics.1 staleJournal 1 (by decide)

/-- Witness for `rle_decoded_length_bounded` on a 5-byte run. -/
theorem rle_decoded_length_bounded_witness :
    (List.replicate 5 170).length ≤ TMD_SCRATCH_SZ :=
  rle_decoded_length_bounded.1 true [5, 170] 2 (List.replicate 5 170) (by decide)

/-- Witness for `chunk_crc_mismatch_rejected` on the bad-CRC chunk of
`patchBadCrc` with the all-zero CRC port. -/
theorem chunk_crc_mismatch_rejected_witness :
    processChunk cfgDefault portsOk (slot_dst_of portsOk layout256) patchBadCrc 80 =
      .err .errIntegrity [] :=
  (chunk_crc_mismatch_rejected cfgDefault portsOk (slot_dst_of portsOk layout256)
    patchBadCrc 80 (fun _ => 0) rfl rfl (by decide) (by decide) (by decide)).1
    (by decide)

/-- Witness for `tlv_parser_skip_and_reject` on a TLV whose length exceeds
the remaining bytes. -/
theorem tlv_parser_skip_and_reject_witness :
    parseMetaLoop [1, 200, 0] 3 3 0 ⟨0, 0, 0, 0⟩ = none :=
  tlv_parser_skip_and_reject.2.1 [1, 200, 0] 3 2 0 ⟨0, 0, 0, 0⟩ (by decide) (by decide)

/-- Witness for `null_crc32_skips_verification` on the bad-CRC run. -/
theorem null_crc32_skips_verification_witness :
    (Status.ok ≠ Status.errIntegrity) :=
  null_crc32_skips_verification.1 cfgDefault fwDefault portsNoCrc layout256 patchBadCrc
    .ok [.erase 4096 256, .readFlash 0 256, .write 4096 256, .write 4096 2,
      .journalWrite ⟨TMD_JOURNAL_MAGIC, 0, 1, 1⟩, .journalClear, .setActive 1]
    rfl (by decide)
